import Mathlib

/-!
Verification of the Felipe file manager (`src/main.rs`).

The program is a Bevy application; the logic under scrutiny is the
directory-state refresh (`load_directory`) and the keyboard handler
(`handle_keyboard`).  We embed those two systems and the data they touch
shallowly:

* A filesystem path (`std::path::PathBuf`) is modelled as the list of its
  components from the root; `FPath.parent` drops the last component and is
  `none` at the root, matching `PathBuf::parent`.
* Machine integers: `size: u64` and `selected_index: usize` become `Nat`.
  The only arithmetic performed on them is `+ 1`, `min`, and
  `saturating_sub 1`, none of which can overflow `u64`/`usize` here
  (`selected_index` is bounded by the entry count), so no modular wrap is
  modelled.
* The filesystem is a parameter `Fs`: for a path it yields `none` when
  `std::fs::read_dir` fails, otherwise the list of directory entries that the
  `ReadDir` iterator yielded successfully (the Rust code drops per-entry
  iterator errors with `filter_map(|e| e.ok())`, so the model's list is the
  surviving entries).  Each raw entry carries the `metadata()` result as an
  `Option`.
* `Vec::sort_by` is a stable sort by a two-key comparator.  A stable sort is
  extensionally determined by its comparator, so we model it with the
  structurally recursive stable `List.insertionSort` from Mathlib, ordered by
  the comparator's "not Greater" relation.
* Rust's `String::cmp` is byte-wise lexicographic on UTF-8, which coincides
  with code-point lexicographic order, i.e. Lean's `String` order; the
  `if lt / if eq / gt` trichotomy below is that comparison.
  `str::to_lowercase` is modelled by `lowerStr`, the character-wise lowercase
  map (written structurally over the character list so that it evaluates in
  the kernel).
* The camera target is set from the selected index's grid cell
  `(i % 10, i / 10)`; the world position is a fixed affine image (with `f32`
  constants) of that cell, so we store the cell itself.  `distance` and
  `angle` are rendering-only floats never touched by the keyboard handler and
  are omitted.
-/

/-- A filesystem path, as its components from the root. -/
abbrev FPath := List String

/-- Model of `PathBuf::parent`: drop the last component; `none` at a root. -/
def FPath.parent : FPath → Option FPath
  | [] => none
  | p :: ps => some (List.dropLast (p :: ps))

/-- A file or directory entry (struct `FileEntry`). -/
structure FileEntry where
  name : String
  path : FPath
  is_dir : Bool
  size : Nat
deriving DecidableEq, Repr

/-- Result of `DirEntry::metadata()` when it succeeds. -/
structure Metadata where
  is_dir : Bool
  len : Nat
deriving DecidableEq, Repr

/-- One entry yielded by the `ReadDir` iterator: its file name, its path, and
the (possibly failed) metadata lookup. -/
structure RawEntry where
  file_name : String
  path : FPath
  metadata : Option Metadata
deriving DecidableEq, Repr

/-- The filesystem, as seen through `std::fs::read_dir`: `none` models a
failed `read_dir` call, `some l` the successfully yielded entries. -/
def Fs := FPath → Option (List RawEntry)

/-- Resource `CurrentDirectory`. -/
structure CurrentDirectory where
  path : FPath
  entries : List FileEntry
  selected_index : Nat
  needs_reload : Bool
deriving DecidableEq, Repr

/-- Resource `VimMode`. -/
inductive VimMode where
  | Normal
  | Visual
  | Command
deriving DecidableEq, Repr

/-- Resource `CameraState`, reduced to the data the keyboard handler can
touch: the grid cell of the camera target. -/
structure CameraState where
  target : Nat × Nat
deriving DecidableEq, Repr

/-- The mutable resources `handle_keyboard` has access to. -/
structure AppState where
  dir : CurrentDirectory
  mode : VimMode
  cam : CameraState
deriving DecidableEq, Repr

/-- Lexicographic comparison of character lists.  Rust's `Ord::cmp` on
`String` is byte-wise lexicographic comparison of the UTF-8 encodings, which
coincides with code-point-wise lexicographic comparison of the character
sequences; this is that comparison, written structurally so it evaluates in
the kernel. -/
def cmpChars : List Char → List Char → Ordering
  | [], [] => .eq
  | [], _ :: _ => .lt
  | _ :: _, [] => .gt
  | a :: as, b :: bs =>
      if a < b then .lt else if b < a then .gt else cmpChars as bs

/-- Rust's `Ord::cmp` on `String` (in `load_directory` it is applied to the
lowercased names). -/
def cmpStr (a b : String) : Ordering :=
  cmpChars a.data b.data

/-- Model of `str::to_lowercase`: lowercase every character. -/
def lowerStr (s : String) : String :=
  ⟨s.data.map Char.toLower⟩

/-- The comparator closure passed to `dir_entries.sort_by` in
`load_directory`: directories first, then case-insensitive name order. -/
def entryCmp (a b : FileEntry) : Ordering :=
  match a.is_dir, b.is_dir with
  | true, false => .lt
  | false, true => .gt
  | _, _ => cmpStr (lowerStr a.name) (lowerStr b.name)

/-- The non-strict order induced by the comparator: `a` may stay before `b`
exactly when the comparator does not say Greater. -/
def entryLe (a b : FileEntry) : Prop := entryCmp a b ≠ .gt

instance : DecidableRel entryLe := fun a b => by
  unfold entryLe; infer_instance

/-- `Vec::sort_by` with the comparator above.  Rust's `sort_by` is a stable
sort, and a stable sort's output is uniquely determined by the comparator, so
the stable `List.insertionSort` computes the same list. -/
def sortEntries (es : List FileEntry) : List FileEntry :=
  es.insertionSort entryLe

/-- Construction of one `FileEntry` from a yielded `ReadDir` entry, defaulting
`is_dir` to `false` and `size` to `0` when metadata could not be read. -/
def buildEntry (r : RawEntry) : FileEntry :=
  { name := r.file_name
    path := r.path
    is_dir := (r.metadata.map Metadata.is_dir).getD false
    size := (r.metadata.map Metadata.len).getD 0 }

/-- The synthetic parent row block of `load_directory`: a single `".."` entry
when the path has a parent different from itself, nothing otherwise. -/
def parentRow (path : FPath) : List FileEntry :=
  match path.parent with
  | some parent =>
      if parent ≠ path then [{ name := "..", path := parent, is_dir := true, size := 0 }]
      else []
  | none => []

/-- The `read_dir` block of `load_directory`: on success build an entry per
yielded item and sort; on failure contribute nothing. -/
def readEntries (fs : Fs) (path : FPath) : List FileEntry :=
  match fs path with
  | some raws => sortEntries (raws.map buildEntry)
  | none => []

/-- System `load_directory`: early-out unless a reload is pending; otherwise
replace the entries with the synthetic parent row followed by the sorted
directory contents, reset the selection, and clear the flag. -/
def load_directory (fs : Fs) (d : CurrentDirectory) : CurrentDirectory :=
  if d.needs_reload = false then d
  else
    { d with
      entries := parentRow d.path ++ readEntries fs d.path
      selected_index := 0
      needs_reload := false }

/-- The key codes `handle_keyboard` inspects. -/
inductive KeyCode where
  | KeyJ | ArrowDown | KeyK | ArrowUp | KeyL | ArrowRight | Enter
  | KeyH | ArrowLeft | KeyG | ShiftLeft | KeyV | Escape
deriving DecidableEq, Repr

/-- The keyboard input resource: edge-triggered and level state per key. -/
structure Keyboard where
  justPressed : KeyCode → Bool
  pressed : KeyCode → Bool

/-- A keyboard on which exactly the key `k` was just pressed and no key is
held. -/
def kbOnly (k : KeyCode) : Keyboard :=
  { justPressed := fun k2 => k2 = k, pressed := fun _ => false }

/-- `update_camera_target`: point the camera at the selected entry's grid
cell. -/
def update_camera_target (d : CurrentDirectory) (c : CameraState) : CameraState :=
  { c with target := (d.selected_index % 10, d.selected_index / 10) }

/-- Normal-mode `j`/`Down` block: advance the selection, clamped to the last
entry. -/
def hkDown (kb : Keyboard) (entry_count : Nat)
    (dc : CurrentDirectory × CameraState) : CurrentDirectory × CameraState :=
  if kb.justPressed .KeyJ || kb.justPressed .ArrowDown then
    let d := { dc.1 with selected_index := min (dc.1.selected_index + 1) (entry_count - 1) }
    (d, update_camera_target d dc.2)
  else dc

/-- Normal-mode `k`/`Up` block: move the selection back, saturating at 0. -/
def hkUp (kb : Keyboard)
    (dc : CurrentDirectory × CameraState) : CurrentDirectory × CameraState :=
  if kb.justPressed .KeyK || kb.justPressed .ArrowUp then
    let d := { dc.1 with selected_index := dc.1.selected_index - 1 }
    (d, update_camera_target d dc.2)
  else dc

/-- Normal-mode `l`/`Right`/`Enter` block: if the selected entry is a
directory, navigate into it and request a reload; otherwise do nothing. -/
def hkOpen (kb : Keyboard)
    (dc : CurrentDirectory × CameraState) : CurrentDirectory × CameraState :=
  if kb.justPressed .KeyL || kb.justPressed .ArrowRight || kb.justPressed .Enter then
    match dc.1.entries[dc.1.selected_index]? with
    | some entry =>
        if entry.is_dir then
          ({ dc.1 with path := entry.path, needs_reload := true }, dc.2)
        else dc
    | none => dc
  else dc

/-- Normal-mode `h`/`Left` block: go to the parent path when it exists and
differs from the current path, requesting a reload. -/
def hkBack (kb : Keyboard)
    (dc : CurrentDirectory × CameraState) : CurrentDirectory × CameraState :=
  if kb.justPressed .KeyH || kb.justPressed .ArrowLeft then
    match dc.1.path.parent with
    | some parent =>
        if parent ≠ dc.1.path then
          ({ dc.1 with path := parent, needs_reload := true }, dc.2)
        else dc
    | none => dc
  else dc

/-- Normal-mode `g` block (without shift): jump to the top. -/
def hkTop (kb : Keyboard)
    (dc : CurrentDirectory × CameraState) : CurrentDirectory × CameraState :=
  if kb.justPressed .KeyG && !kb.pressed .ShiftLeft then
    let d := { dc.1 with selected_index := 0 }
    (d, update_camera_target d dc.2)
  else dc

/-- Normal-mode `G` block (shift held): jump to the bottom. -/
def hkBottom (kb : Keyboard) (entry_count : Nat)
    (dc : CurrentDirectory × CameraState) : CurrentDirectory × CameraState :=
  if kb.pressed .ShiftLeft && kb.justPressed .KeyG then
    let d := { dc.1 with selected_index := entry_count - 1 }
    (d, update_camera_target d dc.2)
  else dc

/-- System `handle_keyboard`: early-out on an empty listing; in Normal mode
run the six key blocks in source order (several may fire in one frame) and
then the `v` transition to Visual; in Visual or Command mode only `Escape`
returns to Normal. -/
def handle_keyboard (kb : Keyboard) (s : AppState) : AppState :=
  let entry_count := s.dir.entries.length
  if entry_count = 0 then s
  else
    match s.mode with
    | .Normal =>
        let dc := (s.dir, s.cam)
        let dc := hkDown kb entry_count dc
        let dc := hkUp kb dc
        let dc := hkOpen kb dc
        let dc := hkBack kb dc
        let dc := hkTop kb dc
        let dc := hkBottom kb entry_count dc
        let mode := if kb.justPressed .KeyV then VimMode.Visual else VimMode.Normal
        { dir := dc.1, mode := mode, cam := dc.2 }
    | .Visual | .Command =>
        if kb.justPressed .Escape then { s with mode := .Normal } else s

/-- One frame of the `Update` schedule restricted to the systems that touch
this state: `load_directory` then `handle_keyboard`. -/
def frame (fs : Fs) (s : AppState) (kb : Keyboard) : AppState :=
  handle_keyboard kb { s with dir := load_directory fs s.dir }

/-! ### Order lemmas for the sort comparator -/

theorem cmpChars_eq_eq : ∀ {a b : List Char}, cmpChars a b = .eq → a = b := by
  intro a
  induction a with
  | nil =>
    intro b h
    cases b with
    | nil => rfl
    | cons y ys => simp [cmpChars] at h
  | cons x xs ih =>
    intro b h
    cases b with
    | nil => simp [cmpChars] at h
    | cons y ys =>
      unfold cmpChars at h
      split_ifs at h with h1 h2
      have hxy : x = y := le_antisymm (not_lt.mp h2) (not_lt.mp h1)
      rw [hxy, ih h]

theorem cmpChars_self (a : List Char) : cmpChars a a = .eq := by
  induction a with
  | nil => rfl
  | cons x xs ih => simp [cmpChars, lt_irrefl, ih]

theorem cmpChars_gt_iff_lt : ∀ {a b : List Char}, cmpChars a b = .gt ↔ cmpChars b a = .lt := by
  intro a
  induction a with
  | nil => intro b; cases b <;> simp [cmpChars]
  | cons x xs ih =>
    intro b
    cases b with
    | nil => simp [cmpChars]
    | cons y ys =>
      rcases lt_trichotomy x y with h | h | h
      · simp [cmpChars, h, lt_asymm h]
      · subst h; simp [cmpChars, lt_irrefl, ih]
      · simp [cmpChars, h, lt_asymm h]

theorem cmpChars_cons_lt {x y : Char} {xs ys : List Char} :
    cmpChars (x :: xs) (y :: ys) = .lt ↔ x < y ∨ (x = y ∧ cmpChars xs ys = .lt) := by
  rcases lt_trichotomy x y with h | h | h
  · simp [cmpChars, h]
  · subst h; simp [cmpChars, lt_irrefl]
  · simp [cmpChars, h, lt_asymm h, (ne_of_gt h), (ne_of_gt h).symm]

theorem cmpChars_lt_trans :
    ∀ {a b c : List Char}, cmpChars a b = .lt → cmpChars b c = .lt → cmpChars a c = .lt := by
  intro a
  induction a with
  | nil =>
    intro b c hab hbc
    cases b with
    | nil => simp [cmpChars] at hab
    | cons y ys =>
      cases c with
      | nil => simp [cmpChars] at hbc
      | cons z zs => simp [cmpChars]
  | cons x xs ih =>
    intro b c hab hbc
    cases b with
    | nil => simp [cmpChars] at hab
    | cons y ys =>
      cases c with
      | nil => simp [cmpChars] at hbc
      | cons z zs =>
        rw [cmpChars_cons_lt] at hab hbc ⊢
        rcases hab with h | ⟨h, hrec⟩ <;> rcases hbc with h2 | ⟨h2, hrec2⟩
        · exact Or.inl (lt_trans h h2)
        · exact Or.inl (h2 ▸ h)
        · exact Or.inl (h ▸ h2)
        · exact Or.inr ⟨h.trans h2, ih hrec hrec2⟩

theorem cmpChars_ne_gt_iff {a b : List Char} :
    cmpChars a b ≠ .gt ↔ cmpChars a b = .lt ∨ a = b := by
  constructor
  · intro h
    rcases ho : cmpChars a b with _ | _ | _
    · exact Or.inl rfl
    · exact Or.inr (cmpChars_eq_eq ho)
    · exact absurd ho h
  · rintro (h | rfl)
    · simp [h]
    · simp [cmpChars_self]

theorem cmpStr_ne_gt_trans {a b c : String} (hab : cmpStr a b ≠ .gt) (hbc : cmpStr b c ≠ .gt) :
    cmpStr a c ≠ .gt := by
  unfold cmpStr at *
  rw [cmpChars_ne_gt_iff] at hab hbc ⊢
  rcases hab with h | h <;> rcases hbc with h2 | h2
  · exact Or.inl (cmpChars_lt_trans h h2)
  · exact Or.inl (h2 ▸ h)
  · exact Or.inl (h ▸ h2)
  · exact Or.inr (h.trans h2)

theorem cmpStr_ne_gt_total (a b : String) : cmpStr a b ≠ .gt ∨ cmpStr b a ≠ .gt := by
  unfold cmpStr
  rcases ho : cmpChars a.data b.data with _ | _ | _
  · exact Or.inl (by simp)
  · exact Or.inl (by simp)
  · exact Or.inr (by simp [cmpChars_gt_iff_lt.mp ho])

instance : IsTrans FileEntry entryLe := by
  constructor
  intro a b c hab hbc
  unfold entryLe entryCmp at *
  cases ha : a.is_dir <;> cases hb : b.is_dir <;> cases hc : c.is_dir <;>
    simp only [ha, hb, hc] at hab hbc ⊢ <;>
    first
      | exact absurd rfl hab
      | exact absurd rfl hbc
      | exact cmpStr_ne_gt_trans hab hbc
      | simp

instance : IsTotal FileEntry entryLe := by
  constructor
  intro a b
  unfold entryLe entryCmp
  cases ha : a.is_dir <;> cases hb : b.is_dir <;> simp only [ha, hb] <;>
    first
      | exact cmpStr_ne_gt_total (lowerStr a.name) (lowerStr b.name)
      | exact Or.inl fun h => Ordering.noConfusion h
      | exact Or.inr fun h => Ordering.noConfusion h

/-! ### Helper lemmas -/

theorem sortEntries_sorted (es : List FileEntry) : (sortEntries es).Pairwise entryLe :=
  List.sorted_insertionSort entryLe es

theorem mem_sortEntries {a : FileEntry} {es : List FileEntry} :
    a ∈ sortEntries es ↔ a ∈ es :=
  List.mem_insertionSort entryLe

theorem parent_ne_self {p q : FPath} (h : FPath.parent p = some q) : q ≠ p := by
  cases p with
  | nil => simp [FPath.parent] at h
  | cons x xs =>
    simp only [FPath.parent, Option.some.injEq] at h
    intro he
    have : (List.dropLast (x :: xs)).length = (x :: xs).length := by rw [h, he]
    simp [List.length_dropLast] at this

theorem parentRow_of_parent {p q : FPath} (h : FPath.parent p = some q) :
    parentRow p = [{ name := "..", path := q, is_dir := true, size := 0 }] := by
  unfold parentRow
  rw [h]
  simp [parent_ne_self h]

theorem parentRow_of_root {p : FPath} (h : FPath.parent p = none) : parentRow p = [] := by
  unfold parentRow
  rw [h]

theorem parentRow_cases (p : FPath) :
    parentRow p = [] ∨
      ∃ q, FPath.parent p = some q ∧
        parentRow p = [{ name := "..", path := q, is_dir := true, size := 0 }] := by
  rcases hp : FPath.parent p with _ | q
  · exact Or.inl (parentRow_of_root hp)
  · exact Or.inr ⟨q, rfl, parentRow_of_parent hp⟩

theorem load_directory_of_reload {fs : Fs} {d : CurrentDirectory} (h : d.needs_reload = true) :
    load_directory fs d =
      { d with
        entries := parentRow d.path ++ readEntries fs d.path
        selected_index := 0
        needs_reload := false } := by
  unfold load_directory
  rw [h]
  rfl

theorem hkDown_entries (kb : Keyboard) (ec : Nat) (dc : CurrentDirectory × CameraState) :
    (hkDown kb ec dc).1.entries = dc.1.entries := by
  unfold hkDown; split <;> rfl

theorem hkUp_entries (kb : Keyboard) (dc : CurrentDirectory × CameraState) :
    (hkUp kb dc).1.entries = dc.1.entries := by
  unfold hkUp; split <;> rfl

theorem hkOpen_entries (kb : Keyboard) (dc : CurrentDirectory × CameraState) :
    (hkOpen kb dc).1.entries = dc.1.entries := by
  unfold hkOpen
  split
  · split
    · split <;> rfl
    · rfl
  · rfl

theorem hkOpen_idx (kb : Keyboard) (dc : CurrentDirectory × CameraState) :
    (hkOpen kb dc).1.selected_index = dc.1.selected_index := by
  unfold hkOpen
  split
  · split
    · split <;> rfl
    · rfl
  · rfl

theorem hkBack_entries (kb : Keyboard) (dc : CurrentDirectory × CameraState) :
    (hkBack kb dc).1.entries = dc.1.entries := by
  unfold hkBack
  split
  · split
    · split <;> rfl
    · rfl
  · rfl

theorem hkBack_idx (kb : Keyboard) (dc : CurrentDirectory × CameraState) :
    (hkBack kb dc).1.selected_index = dc.1.selected_index := by
  unfold hkBack
  split
  · split
    · split <;> rfl
    · rfl
  · rfl

theorem hkTop_entries (kb : Keyboard) (dc : CurrentDirectory × CameraState) :
    (hkTop kb dc).1.entries = dc.1.entries := by
  unfold hkTop; split <;> rfl

theorem hkBottom_entries (kb : Keyboard) (ec : Nat) (dc : CurrentDirectory × CameraState) :
    (hkBottom kb ec dc).1.entries = dc.1.entries := by
  unfold hkBottom; split <;> rfl

theorem hkDown_bound {kb : Keyboard} {ec : Nat} {dc : CurrentDirectory × CameraState}
    (h : dc.1.selected_index < ec) : (hkDown kb ec dc).1.selected_index < ec := by
  unfold hkDown
  split
  · exact Nat.lt_of_le_of_lt (Nat.min_le_right _ _) (Nat.sub_lt (Nat.lt_of_le_of_lt (Nat.zero_le _) h) one_pos)
  · exact h

theorem hkUp_bound {kb : Keyboard} {ec : Nat} {dc : CurrentDirectory × CameraState}
    (h : dc.1.selected_index < ec) : (hkUp kb dc).1.selected_index < ec := by
  unfold hkUp
  split
  · exact Nat.lt_of_le_of_lt (Nat.sub_le _ _) h
  · exact h

theorem hkTop_bound {kb : Keyboard} {ec : Nat} {dc : CurrentDirectory × CameraState}
    (h : dc.1.selected_index < ec) : (hkTop kb dc).1.selected_index < ec := by
  unfold hkTop
  split
  · exact Nat.lt_of_le_of_lt (Nat.zero_le _) h
  · exact h

theorem hkBottom_bound {kb : Keyboard} {ec : Nat} {dc : CurrentDirectory × CameraState}
    (h : dc.1.selected_index < ec) : (hkBottom kb ec dc).1.selected_index < ec := by
  unfold hkBottom
  split
  · exact Nat.sub_lt (Nat.lt_of_le_of_lt (Nat.zero_le _) h) one_pos
  · exact h

theorem hk_mode_ne_command (kb : Keyboard) (s : AppState) (h : s.mode ≠ .Command) :
    (handle_keyboard kb s).mode ≠ .Command := by
  unfold handle_keyboard
  by_cases he : s.dir.entries.length = 0
  · simpa [he] using h
  · rcases hm : s.mode with _ | _ | _
    · simp only [he, if_false, hm]
      split <;> simp
    · simp only [he, if_false, hm]
      split
      · simp
      · simp [hm]
    · exact absurd hm h

/-! ### Claims -/

/-- C6: the directory loader is a no-op whenever `needs_reload` is false;
whenever it is true, after the load `selected_index` is 0 and `needs_reload`
is false, for every filesystem behaviour (success or failure alike). -/
theorem claim_c6 (fs : Fs) (d : CurrentDirectory) :
    (d.needs_reload = false → load_directory fs d = d)
    ∧ (d.needs_reload = true →
        (load_directory fs d).selected_index = 0
        ∧ (load_directory fs d).needs_reload = false) := by
  constructor
  · intro h
    unfold load_directory
    simp [h]
  · intro h
    rw [load_directory_of_reload h]
    exact ⟨rfl, rfl⟩

/-- Witness for C6 at a concrete directory state and a failing filesystem. -/
theorem claim_c6_witness :
    ({ path := ["a"], entries := [], selected_index := 3, needs_reload := true }
        : CurrentDirectory).needs_reload = true
    ∧ ((load_directory (fun _ => none)
          { path := ["a"], entries := [], selected_index := 3, needs_reload := true }).selected_index = 0
       ∧ (load_directory (fun _ => none)
          { path := ["a"], entries := [], selected_index := 3, needs_reload := true }).needs_reload = false) :=
  ⟨rfl, (claim_c6 (fun _ => none)
    { path := ["a"], entries := [], selected_index := 3, needs_reload := true }).2 rfl⟩

/-- C9: with an empty entries list the keyboard handler leaves the whole
state unchanged for every key input, mode transitions included. -/
theorem claim_c9 (kb : Keyboard) (s : AppState) (h : s.dir.entries = []) :
    handle_keyboard kb s = s := by
  unfold handle_keyboard
  simp [h]

/-- Witness for C9: even `Escape` in Visual mode does nothing on an empty
listing. -/
theorem claim_c9_witness :
    ({ dir := { path := [], entries := [], selected_index := 0, needs_reload := false },
       mode := .Visual, cam := { target := (0, 0) } } : AppState).dir.entries = []
    ∧ handle_keyboard (kbOnly .Escape)
        { dir := { path := [], entries := [], selected_index := 0, needs_reload := false },
          mode := .Visual, cam := { target := (0, 0) } }
      = { dir := { path := [], entries := [], selected_index := 0, needs_reload := false },
          mode := .Visual, cam := { target := (0, 0) } } :=
  ⟨rfl, claim_c9 (kbOnly .Escape) _ rfl⟩

/-- C8: while the mode is Visual or Command, no key input changes the
directory state or the camera target, and the mode changes only to Normal
and only when the cancel key (`Escape`) was just pressed. -/
theorem claim_c8 (kb : Keyboard) (s : AppState) (h : s.mode = .Visual ∨ s.mode = .Command) :
    (handle_keyboard kb s).dir = s.dir
    ∧ (handle_keyboard kb s).cam = s.cam
    ∧ ((handle_keyboard kb s).mode = s.mode
       ∨ ((handle_keyboard kb s).mode = .Normal ∧ kb.justPressed .Escape = true)) := by
  unfold handle_keyboard
  by_cases he : s.dir.entries.length = 0
  · simp [he]
  · rcases h with hm | hm <;>
      simp only [he, if_false, hm] <;>
      rcases hesc : kb.justPressed .Escape with _ | _ <;>
      simp [hesc, hm]

/-- Witness for C8: `KeyJ` in Visual mode on a nonempty listing changes
nothing. -/
theorem claim_c8_witness :
    (({ dir := { path := ["a"], entries := [⟨"x", ["a", "x"], false, 0⟩],
                 selected_index := 0, needs_reload := false },
        mode := .Visual, cam := { target := (0, 0) } } : AppState).mode = .Visual
      ∨ ({ dir := { path := ["a"], entries := [⟨"x", ["a", "x"], false, 0⟩],
                    selected_index := 0, needs_reload := false },
           mode := .Visual, cam := { target := (0, 0) } } : AppState).mode = .Command)
    ∧ ((handle_keyboard (kbOnly .KeyJ)
          { dir := { path := ["a"], entries := [⟨"x", ["a", "x"], false, 0⟩],
                     selected_index := 0, needs_reload := false },
            mode := .Visual, cam := { target := (0, 0) } }).dir
        = { path := ["a"], entries := [⟨"x", ["a", "x"], false, 0⟩],
            selected_index := 0, needs_reload := false }
       ∧ (handle_keyboard (kbOnly .KeyJ)
          { dir := { path := ["a"], entries := [⟨"x", ["a", "x"], false, 0⟩],
                     selected_index := 0, needs_reload := false },
            mode := .Visual, cam := { target := (0, 0) } }).cam = { target := (0, 0) }
       ∧ ((handle_keyboard (kbOnly .KeyJ)
          { dir := { path := ["a"], entries := [⟨"x", ["a", "x"], false, 0⟩],
                     selected_index := 0, needs_reload := false },
            mode := .Visual, cam := { target := (0, 0) } }).mode = .Visual
          ∨ ((handle_keyboard (kbOnly .KeyJ)
              { dir := { path := ["a"], entries := [⟨"x", ["a", "x"], false, 0⟩],
                         selected_index := 0, needs_reload := false },
                mode := .Visual, cam := { target := (0, 0) } }).mode = .Normal
             ∧ (kbOnly .KeyJ).justPressed .Escape = true))) :=
  ⟨Or.inl rfl, claim_c8 (kbOnly .KeyJ) _ (Or.inl rfl)⟩

/-- C10: Command mode is unreachable: starting in Normal mode, no sequence of
frames (directory load followed by keyboard handling, with arbitrary key
input and filesystem behaviour) ever produces Command mode. -/
theorem claim_c10 (fs : Fs) (kbs : List Keyboard) (d : CurrentDirectory) (cam : CameraState) :
    (kbs.foldl (frame fs) { dir := d, mode := .Normal, cam := cam }).mode ≠ .Command := by
  have aux : ∀ (l : List Keyboard) (s : AppState), s.mode ≠ .Command →
      (l.foldl (frame fs) s).mode ≠ .Command := by
    intro l
    induction l with
    | nil => intro s h; exact h
    | cons kb rest ih =>
      intro s h
      simp only [List.foldl_cons]
      exact ih _ (hk_mode_ne_command kb _ h)
  exact aux kbs _ (by simp)

/-- C5: after every completed load, if the loaded path has a parent (always
different from itself in this path model) then the first entry is the
synthetic `".."` directory row pointing at that parent; at a root, provided
the filesystem enumeration never yields an entry literally named `".."`
(guaranteed by `std::fs::read_dir`, which skips the dot entries), no entry of
the listing is named `".."`. -/
theorem claim_c5 (fs : Fs) (d : CurrentDirectory) (h : d.needs_reload = true) :
    (∀ p, FPath.parent d.path = some p →
        (load_directory fs d).entries.head? =
          some { name := "..", path := p, is_dir := true, size := 0 })
    ∧ (FPath.parent d.path = none →
        (∀ raws, fs d.path = some raws → ∀ r ∈ raws, r.file_name ≠ "..") →
        ∀ e ∈ (load_directory fs d).entries, e.name ≠ "..") := by
  rw [load_directory_of_reload h]
  constructor
  · intro p hp
    simp [parentRow_of_parent hp]
  · intro hp hraw e he
    simp only at he
    rw [parentRow_of_root hp, List.nil_append] at he
    unfold readEntries at he
    rcases hfs : fs d.path with _ | raws
    · rw [hfs] at he
      simp at he
    · rw [hfs, mem_sortEntries] at he
      rcases List.mem_map.mp he with ⟨r, hr, hre⟩
      intro hname
      exact hraw raws hfs r hr (by rw [← hre] at hname; exact hname)

/-- Witness for C5 on a directory with a parent: the `".."` row is first. -/
theorem claim_c5_witness :
    ({ path := ["a", "b"], entries := [], selected_index := 0, needs_reload := true }
        : CurrentDirectory).needs_reload = true
    ∧ FPath.parent ["a", "b"] = some ["a"]
    ∧ (load_directory (fun _ => some [])
        { path := ["a", "b"], entries := [], selected_index := 0,
          needs_reload := true }).entries.head?
      = some { name := "..", path := ["a"], is_dir := true, size := 0 } :=
  ⟨rfl, rfl,
    (claim_c5 (fun _ => some [])
      { path := ["a", "b"], entries := [], selected_index := 0, needs_reload := true }
      rfl).1 ["a"] rfl⟩

/-- C7: directory-load failure is absorbed silently: when `read_dir` fails
the listing is exactly the synthetic parent row (one `".."` entry, or nothing
at a root), and an entry whose metadata lookup failed is still listed with
`is_dir` defaulted to false and `size` defaulted to 0.  (No error value
exists anywhere in the model: `load_directory` is a total function into
directory states.) -/
theorem claim_c7 (fs : Fs) (d : CurrentDirectory) (h : d.needs_reload = true) :
    (fs d.path = none →
        (load_directory fs d).entries = parentRow d.path
        ∧ (parentRow d.path = [] ∨
            ∃ p, parentRow d.path = [{ name := "..", path := p, is_dir := true, size := 0 }]))
    ∧ (∀ raws, fs d.path = some raws → ∀ r ∈ raws, r.metadata = none →
        ({ name := r.file_name, path := r.path, is_dir := false, size := 0 } : FileEntry)
          ∈ (load_directory fs d).entries) := by
  rw [load_directory_of_reload h]
  constructor
  · intro hfs
    constructor
    · simp [readEntries, hfs]
    · rcases parentRow_cases d.path with hc | ⟨q, _, hc⟩
      · exact Or.inl hc
      · exact Or.inr ⟨q, hc⟩
  · intro raws hfs r hr hmeta
    simp only
    apply List.mem_append_right
    unfold readEntries
    rw [hfs, mem_sortEntries]
    apply List.mem_map.mpr
    exact ⟨r, hr, by simp [buildEntry, hmeta]⟩

/-- Witness for C7: an entry with unreadable metadata is listed as a size-0
file. -/
theorem claim_c7_witness :
    ({ path := ["a"], entries := [], selected_index := 0, needs_reload := true }
        : CurrentDirectory).needs_reload = true
    ∧ (fun _ => some [⟨"x", ["a", "x"], none⟩] : Fs) ["a"] = some [⟨"x", ["a", "x"], none⟩]
    ∧ (⟨"x", ["a", "x"], none⟩ : RawEntry) ∈ [(⟨"x", ["a", "x"], none⟩ : RawEntry)]
    ∧ (⟨"x", ["a", "x"], none⟩ : RawEntry).metadata = none
    ∧ ({ name := "x", path := ["a", "x"], is_dir := false, size := 0 } : FileEntry)
        ∈ (load_directory (fun _ => some [⟨"x", ["a", "x"], none⟩])
            { path := ["a"], entries := [], selected_index := 0, needs_reload := true }).entries :=
  ⟨rfl, rfl, by decide, rfl,
    (claim_c7 (fun _ => some [⟨"x", ["a", "x"], none⟩])
      { path := ["a"], entries := [], selected_index := 0, needs_reload := true } rfl).2
      [⟨"x", ["a", "x"], none⟩] rfl ⟨"x", ["a", "x"], none⟩ (by decide) rfl⟩

theorem handle_keyboard_normal (kb : Keyboard) (s : AppState) (hm : s.mode = .Normal)
    (he : s.dir.entries.length ≠ 0) :
    handle_keyboard kb s =
      { dir := (hkBottom kb s.dir.entries.length (hkTop kb (hkBack kb (hkOpen kb (hkUp kb
          (hkDown kb s.dir.entries.length (s.dir, s.cam))))))).1
        mode := if kb.justPressed .KeyV then VimMode.Visual else VimMode.Normal
        cam := (hkBottom kb s.dir.entries.length (hkTop kb (hkBack kb (hkOpen kb (hkUp kb
          (hkDown kb s.dir.entries.length (s.dir, s.cam))))))).2 } := by
  unfold handle_keyboard
  rw [hm]
  simp [he]

theorem hk_chain_entries (kb : Keyboard) (ec : Nat) (dc : CurrentDirectory × CameraState) :
    (hkBottom kb ec (hkTop kb (hkBack kb (hkOpen kb (hkUp kb
        (hkDown kb ec dc)))))).1.entries = dc.1.entries := by
  rw [hkBottom_entries, hkTop_entries, hkBack_entries, hkOpen_entries, hkUp_entries,
    hkDown_entries]

theorem hk_chain_bound {kb : Keyboard} {ec : Nat} {dc : CurrentDirectory × CameraState}
    (h : dc.1.selected_index < ec) :
    (hkBottom kb ec (hkTop kb (hkBack kb (hkOpen kb (hkUp kb
        (hkDown kb ec dc)))))).1.selected_index < ec := by
  apply hkBottom_bound
  apply hkTop_bound
  rw [hkBack_idx, hkOpen_idx]
  exact hkUp_bound (hkDown_bound h)

theorem hkDown_no {kb : Keyboard} {ec : Nat} {dc : CurrentDirectory × CameraState}
    (h1 : kb.justPressed .KeyJ = false) (h2 : kb.justPressed .ArrowDown = false) :
    hkDown kb ec dc = dc := by
  unfold hkDown; simp [h1, h2]

theorem hkUp_no {kb : Keyboard} {dc : CurrentDirectory × CameraState}
    (h1 : kb.justPressed .KeyK = false) (h2 : kb.justPressed .ArrowUp = false) :
    hkUp kb dc = dc := by
  unfold hkUp; simp [h1, h2]

theorem hkOpen_no {kb : Keyboard} {dc : CurrentDirectory × CameraState}
    (h1 : kb.justPressed .KeyL = false) (h2 : kb.justPressed .ArrowRight = false)
    (h3 : kb.justPressed .Enter = false) :
    hkOpen kb dc = dc := by
  unfold hkOpen; simp [h1, h2, h3]

theorem hkBack_no {kb : Keyboard} {dc : CurrentDirectory × CameraState}
    (h1 : kb.justPressed .KeyH = false) (h2 : kb.justPressed .ArrowLeft = false) :
    hkBack kb dc = dc := by
  unfold hkBack; simp [h1, h2]

theorem hkTop_no {kb : Keyboard} {dc : CurrentDirectory × CameraState}
    (h : kb.justPressed .KeyG = false) :
    hkTop kb dc = dc := by
  unfold hkTop; simp [h]

theorem hkBottom_no {kb : Keyboard} {ec : Nat} {dc : CurrentDirectory × CameraState}
    (h : kb.justPressed .KeyG = false) :
    hkBottom kb ec dc = dc := by
  unfold hkBottom; simp [h]

theorem hkOpen_yes {kb : Keyboard} {dc : CurrentDirectory × CameraState} {e : FileEntry}
    (hc : (kb.justPressed .KeyL || kb.justPressed .ArrowRight || kb.justPressed .Enter) = true)
    (he : dc.1.entries[dc.1.selected_index]? = some e) :
    hkOpen kb dc =
      if e.is_dir then ({ dc.1 with path := e.path, needs_reload := true }, dc.2) else dc := by
  unfold hkOpen
  simp [hc, he]

theorem hkBack_yes {kb : Keyboard} {dc : CurrentDirectory × CameraState} {p : FPath}
    (hc : (kb.justPressed .KeyH || kb.justPressed .ArrowLeft) = true)
    (hp : FPath.parent dc.1.path = some p) :
    hkBack kb dc = ({ dc.1 with path := p, needs_reload := true }, dc.2) := by
  unfold hkBack
  simp [hc, hp, parent_ne_self hp]

theorem hkBack_root {kb : Keyboard} {dc : CurrentDirectory × CameraState}
    (hp : FPath.parent dc.1.path = none) :
    hkBack kb dc = dc := by
  unfold hkBack
  split
  · rw [hp]
  · rfl

/-- C2: in Normal mode, for a nonempty listing with an in-range selection,
any key input keeps `selected_index` within bounds, and moving down at the
last entry or up at the first clamps at the boundary instead of wrapping. -/
theorem claim_c2 (kb : Keyboard) (s : AppState) (hm : s.mode = .Normal)
    (hne : s.dir.entries ≠ [])
    (hidx : s.dir.selected_index < s.dir.entries.length) :
    ((handle_keyboard kb s).dir.selected_index < (handle_keyboard kb s).dir.entries.length)
    ∧ (s.dir.selected_index = s.dir.entries.length - 1 →
        (handle_keyboard (kbOnly .KeyJ) s).dir.selected_index = s.dir.entries.length - 1)
    ∧ (s.dir.selected_index = 0 →
        (handle_keyboard (kbOnly .KeyK) s).dir.selected_index = 0) := by
  have he : s.dir.entries.length ≠ 0 := fun h0 => hne (List.length_eq_zero.mp h0)
  refine ⟨?_, ?_, ?_⟩
  · rw [handle_keyboard_normal kb s hm he]
    simp only
    rw [hk_chain_entries]
    exact hk_chain_bound hidx
  · intro hlast
    rw [handle_keyboard_normal (kbOnly .KeyJ) s hm he]
    simp only
    rw [hkBottom_no rfl, hkTop_no rfl, hkBack_no rfl rfl, hkOpen_no rfl rfl rfl,
      hkUp_no rfl rfl]
    unfold hkDown
    simp [kbOnly, hlast]
  · intro h0
    rw [handle_keyboard_normal (kbOnly .KeyK) s hm he]
    simp only
    rw [hkBottom_no rfl, hkTop_no rfl, hkBack_no rfl rfl, hkOpen_no rfl rfl rfl,
      hkDown_no rfl rfl]
    unfold hkUp
    simp [kbOnly, h0]

/-- Witness for C2: with two entries and the last one selected, `j` keeps the
selection at the last entry. -/
theorem claim_c2_witness :
    ({ dir := { path := ["a"], entries := [⟨"..", [], true, 0⟩, ⟨"x", ["a", "x"], false, 1⟩],
                selected_index := 1, needs_reload := false },
       mode := .Normal, cam := { target := (0, 0) } } : AppState).mode = .Normal
    ∧ ({ path := ["a"], entries := [⟨"..", [], true, 0⟩, ⟨"x", ["a", "x"], false, 1⟩],
         selected_index := 1, needs_reload := false } : CurrentDirectory).entries ≠ []
    ∧ ({ path := ["a"], entries := [⟨"..", [], true, 0⟩, ⟨"x", ["a", "x"], false, 1⟩],
         selected_index := 1, needs_reload := false } : CurrentDirectory).selected_index
        < ({ path := ["a"], entries := [⟨"..", [], true, 0⟩, ⟨"x", ["a", "x"], false, 1⟩],
             selected_index := 1, needs_reload := false } : CurrentDirectory).entries.length
    ∧ (handle_keyboard (kbOnly .KeyJ)
        { dir := { path := ["a"], entries := [⟨"..", [], true, 0⟩, ⟨"x", ["a", "x"], false, 1⟩],
                   selected_index := 1, needs_reload := false },
          mode := .Normal, cam := { target := (0, 0) } }).dir.selected_index
        = ({ path := ["a"], entries := [⟨"..", [], true, 0⟩, ⟨"x", ["a", "x"], false, 1⟩],
             selected_index := 1, needs_reload := false } : CurrentDirectory).entries.length - 1 :=
  ⟨rfl, by decide, by decide,
    (claim_c2 (kbOnly .KeyJ)
      { dir := { path := ["a"], entries := [⟨"..", [], true, 0⟩, ⟨"x", ["a", "x"], false, 1⟩],
                 selected_index := 1, needs_reload := false },
        mode := .Normal, cam := { target := (0, 0) } }
      rfl (by decide) (by decide)).2.1 rfl⟩

/-- C3: in Normal mode, activating (`l`/`Right`/`Enter`) the selected entry
navigates into it (sets `path` to the entry's path and `needs_reload`) when
it is a directory, and leaves the whole state unchanged when it is not. -/
theorem claim_c3 (s : AppState) (k : KeyCode) (e : FileEntry)
    (hm : s.mode = .Normal)
    (hk : k = .KeyL ∨ k = .ArrowRight ∨ k = .Enter)
    (he : s.dir.entries[s.dir.selected_index]? = some e) :
    (e.is_dir = true →
        handle_keyboard (kbOnly k) s =
          { dir := { s.dir with path := e.path, needs_reload := true },
            mode := .Normal, cam := s.cam })
    ∧ (e.is_dir = false → handle_keyboard (kbOnly k) s = s) := by
  obtain ⟨d, m, c⟩ := s
  obtain rfl : m = VimMode.Normal := hm
  have hlen : d.entries.length ≠ 0 := by
    intro h0
    rw [List.getElem?_eq_none (by rw [h0]; exact Nat.zero_le _)] at he
    exact Option.noConfusion he
  have hJ : (kbOnly k).justPressed .KeyJ = false := by
    rcases hk with rfl | rfl | rfl <;> rfl
  have hDn : (kbOnly k).justPressed .ArrowDown = false := by
    rcases hk with rfl | rfl | rfl <;> rfl
  have hK : (kbOnly k).justPressed .KeyK = false := by
    rcases hk with rfl | rfl | rfl <;> rfl
  have hUp : (kbOnly k).justPressed .ArrowUp = false := by
    rcases hk with rfl | rfl | rfl <;> rfl
  have hH : (kbOnly k).justPressed .KeyH = false := by
    rcases hk with rfl | rfl | rfl <;> rfl
  have hLt : (kbOnly k).justPressed .ArrowLeft = false := by
    rcases hk with rfl | rfl | rfl <;> rfl
  have hG : (kbOnly k).justPressed .KeyG = false := by
    rcases hk with rfl | rfl | rfl <;> rfl
  have hV : (kbOnly k).justPressed .KeyV = false := by
    rcases hk with rfl | rfl | rfl <;> rfl
  have hOpen : ((kbOnly k).justPressed .KeyL || (kbOnly k).justPressed .ArrowRight
      || (kbOnly k).justPressed .Enter) = true := by
    rcases hk with rfl | rfl | rfl <;> rfl
  constructor
  · intro hdir
    rw [handle_keyboard_normal _ _ rfl hlen]
    simp only
    rw [hkDown_no hJ hDn, hkUp_no hK hUp, hkOpen_yes hOpen he, if_pos hdir,
      hkBack_no hH hLt, hkTop_no hG, hkBottom_no hG, hV]
    rfl
  · intro hdir
    rw [handle_keyboard_normal _ _ rfl hlen]
    simp only
    rw [hkDown_no hJ hDn, hkUp_no hK hUp, hkOpen_yes hOpen he,
      if_neg (by simp [hdir]), hkBack_no hH hLt, hkTop_no hG, hkBottom_no hG, hV]
    rfl

/-- Witness for C3: `Enter` on a selected subdirectory navigates into it. -/
theorem claim_c3_witness :
    ({ dir := { path := ["a"], entries := [⟨"sub", ["a", "sub"], true, 0⟩],
                selected_index := 0, needs_reload := false },
       mode := .Normal, cam := { target := (0, 0) } } : AppState).mode = .Normal
    ∧ (KeyCode.Enter = .KeyL ∨ KeyCode.Enter = .ArrowRight ∨ KeyCode.Enter = .Enter)
    ∧ ({ path := ["a"], entries := [⟨"sub", ["a", "sub"], true, 0⟩],
         selected_index := 0, needs_reload := false }
          : CurrentDirectory).entries[(0 : Nat)]? = some ⟨"sub", ["a", "sub"], true, 0⟩
    ∧ (FileEntry.mk "sub" ["a", "sub"] true 0).is_dir = true
    ∧ handle_keyboard (kbOnly .Enter)
        { dir := { path := ["a"], entries := [⟨"sub", ["a", "sub"], true, 0⟩],
                   selected_index := 0, needs_reload := false },
          mode := .Normal, cam := { target := (0, 0) } }
      = { dir := { path := ["a", "sub"], entries := [⟨"sub", ["a", "sub"], true, 0⟩],
                   selected_index := 0, needs_reload := true },
          mode := .Normal, cam := { target := (0, 0) } } :=
  ⟨rfl, Or.inr (Or.inr rfl), rfl, rfl,
    (claim_c3
      { dir := { path := ["a"], entries := [⟨"sub", ["a", "sub"], true, 0⟩],
                 selected_index := 0, needs_reload := false },
        mode := .Normal, cam := { target := (0, 0) } }
      .Enter ⟨"sub", ["a", "sub"], true, 0⟩ rfl (Or.inr (Or.inr rfl)) rfl).1 rfl⟩

/-- C4: in Normal mode on a nonempty listing, `h`/`Left` navigates to the
parent path and requests a reload whenever the current path has a parent
(always different from itself in this path model); at a root it leaves the
state unchanged. -/
theorem claim_c4 (s : AppState) (k : KeyCode)
    (hm : s.mode = .Normal)
    (hk : k = .KeyH ∨ k = .ArrowLeft)
    (hne : s.dir.entries ≠ []) :
    (∀ p, FPath.parent s.dir.path = some p →
        handle_keyboard (kbOnly k) s =
          { dir := { s.dir with path := p, needs_reload := true },
            mode := .Normal, cam := s.cam })
    ∧ (FPath.parent s.dir.path = none → handle_keyboard (kbOnly k) s = s) := by
  obtain ⟨d, m, c⟩ := s
  obtain rfl : m = VimMode.Normal := hm
  have hlen : d.entries.length ≠ 0 := fun h0 => hne (List.length_eq_zero.mp h0)
  have hJ : (kbOnly k).justPressed .KeyJ = false := by
    rcases hk with rfl | rfl <;> rfl
  have hDn : (kbOnly k).justPressed .ArrowDown = false := by
    rcases hk with rfl | rfl <;> rfl
  have hK : (kbOnly k).justPressed .KeyK = false := by
    rcases hk with rfl | rfl <;> rfl
  have hUp : (kbOnly k).justPressed .ArrowUp = false := by
    rcases hk with rfl | rfl <;> rfl
  have hL : (kbOnly k).justPressed .KeyL = false := by
    rcases hk with rfl | rfl <;> rfl
  have hRt : (kbOnly k).justPressed .ArrowRight = false := by
    rcases hk with rfl | rfl <;> rfl
  have hEn : (kbOnly k).justPressed .Enter = false := by
    rcases hk with rfl | rfl <;> rfl
  have hG : (kbOnly k).justPressed .KeyG = false := by
    rcases hk with rfl | rfl <;> rfl
  have hV : (kbOnly k).justPressed .KeyV = false := by
    rcases hk with rfl | rfl <;> rfl
  have hBack : ((kbOnly k).justPressed .KeyH || (kbOnly k).justPressed .ArrowLeft) = true := by
    rcases hk with rfl | rfl <;> rfl
  constructor
  · intro p hp
    rw [handle_keyboard_normal _ _ rfl hlen]
    simp only
    rw [hkDown_no hJ hDn, hkUp_no hK hUp, hkOpen_no hL hRt hEn,
      hkBack_yes hBack hp, hkTop_no hG, hkBottom_no hG, hV]
    rfl
  · intro hp
    rw [handle_keyboard_normal _ _ rfl hlen]
    simp only
    rw [hkDown_no hJ hDn, hkUp_no hK hUp, hkOpen_no hL hRt hEn,
      hkBack_root hp, hkTop_no hG, hkBottom_no hG, hV]
    rfl

/-- Witness for C4: `h` in a subdirectory goes back to the parent. -/
theorem claim_c4_witness :
    ({ dir := { path := ["a", "b"], entries := [⟨"..", ["a"], true, 0⟩],
                selected_index := 0, needs_reload := false },
       mode := .Normal, cam := { target := (0, 0) } } : AppState).mode = .Normal
    ∧ (KeyCode.KeyH = .KeyH ∨ KeyCode.KeyH = .ArrowLeft)
    ∧ ({ path := ["a", "b"], entries := [⟨"..", ["a"], true, 0⟩],
         selected_index := 0, needs_reload := false } : CurrentDirectory).entries ≠ []
    ∧ FPath.parent ["a", "b"] = some ["a"]
    ∧ handle_keyboard (kbOnly .KeyH)
        { dir := { path := ["a", "b"], entries := [⟨"..", ["a"], true, 0⟩],
                   selected_index := 0, needs_reload := false },
          mode := .Normal, cam := { target := (0, 0) } }
      = { dir := { path := ["a"], entries := [⟨"..", ["a"], true, 0⟩],
                   selected_index := 0, needs_reload := true },
          mode := .Normal, cam := { target := (0, 0) } } :=
  ⟨rfl, Or.inl rfl, by decide, rfl,
    (claim_c4
      { dir := { path := ["a", "b"], entries := [⟨"..", ["a"], true, 0⟩],
                 selected_index := 0, needs_reload := false },
        mode := .Normal, cam := { target := (0, 0) } }
      .KeyH rfl (Or.inl rfl) (by decide)).1 ["a"] rfl⟩

theorem entryLe_elim {a b : FileEntry} (h : entryLe a b) :
    (b.is_dir = true → a.is_dir = true)
    ∧ (a.is_dir = b.is_dir → cmpStr (lowerStr a.name) (lowerStr b.name) ≠ .gt) := by
  unfold entryLe entryCmp at h
  cases ha : a.is_dir <;> cases hb : b.is_dir <;>
    rw [ha, hb] at h <;>
    first
      | exact absurd rfl h
      | exact ⟨fun hc => Bool.noConfusion hc, fun _ => h⟩
      | exact ⟨fun _ => rfl, fun hc => Bool.noConfusion hc⟩
      | exact ⟨fun _ => rfl, fun _ => h⟩

theorem readEntries_sorted (fs : Fs) (p : FPath) :
    (readEntries fs p).Pairwise
      (fun a b => (b.is_dir = true → a.is_dir = true)
        ∧ (a.is_dir = b.is_dir → cmpStr (lowerStr a.name) (lowerStr b.name) ≠ .gt)) := by
  unfold readEntries
  rcases fs p with _ | raws
  · exact List.Pairwise.nil
  · exact (sortEntries_sorted _).imp entryLe_elim

/-- C1: after any completed load the listing is the synthetic parent row
(the `".."` entry, placed first, when present) followed by the sorted
directory contents, in which every directory precedes every file and, within
entries of the same kind, the lowercased names are in ascending lexicographic
order; on the example directory (`b.txt` file, `A` folder, `.hidden`
file, path with a parent) the listing is exactly
`[".."; "A"; ".hidden"; "b.txt"]`. -/
theorem claim_c1 (fs : Fs) (d : CurrentDirectory) (h : d.needs_reload = true) :
    (load_directory fs d).entries = parentRow d.path ++ readEntries fs d.path
    ∧ (readEntries fs d.path).Pairwise
        (fun a b => (b.is_dir = true → a.is_dir = true)
          ∧ (a.is_dir = b.is_dir → cmpStr (lowerStr a.name) (lowerStr b.name) ≠ .gt))
    ∧ (load_directory
        (fun p => if p = ["home", "dir"] then
            some [⟨"b.txt", ["home", "dir", "b.txt"], some ⟨false, 3⟩⟩,
                  ⟨"A", ["home", "dir", "A"], some ⟨true, 0⟩⟩,
                  ⟨".hidden", ["home", "dir", ".hidden"], some ⟨false, 0⟩⟩]
          else none)
        { path := ["home", "dir"], entries := [], selected_index := 0,
          needs_reload := true }).entries
      = [⟨"..", ["home"], true, 0⟩,
         ⟨"A", ["home", "dir", "A"], true, 0⟩,
         ⟨".hidden", ["home", "dir", ".hidden"], false, 0⟩,
         ⟨"b.txt", ["home", "dir", "b.txt"], false, 3⟩] := by
  refine ⟨?_, readEntries_sorted fs d.path, ?_⟩
  · rw [load_directory_of_reload h]
  · decide

/-- Witness for C1 at the example directory of the claim. -/
theorem claim_c1_witness :
    ({ path := ["home", "dir"], entries := [], selected_index := 0, needs_reload := true }
        : CurrentDirectory).needs_reload = true
    ∧ (load_directory
        (fun p => if p = ["home", "dir"] then
            some [⟨"b.txt", ["home", "dir", "b.txt"], some ⟨false, 3⟩⟩,
                  ⟨"A", ["home", "dir", "A"], some ⟨true, 0⟩⟩,
                  ⟨".hidden", ["home", "dir", ".hidden"], some ⟨false, 0⟩⟩]
          else none)
        { path := ["home", "dir"], entries := [], selected_index := 0,
          needs_reload := true }).entries
      = parentRow ["home", "dir"]
        ++ readEntries
          (fun p => if p = ["home", "dir"] then
              some [⟨"b.txt", ["home", "dir", "b.txt"], some ⟨false, 3⟩⟩,
                    ⟨"A", ["home", "dir", "A"], some ⟨true, 0⟩⟩,
                    ⟨".hidden", ["home", "dir", ".hidden"], some ⟨false, 0⟩⟩]
            else none)
          ["home", "dir"] :=
  ⟨rfl,
    (claim_c1
      (fun p => if p = ["home", "dir"] then
          some [⟨"b.txt", ["home", "dir", "b.txt"], some ⟨false, 3⟩⟩,
                ⟨"A", ["home", "dir", "A"], some ⟨true, 0⟩⟩,
                ⟨".hidden", ["home", "dir", ".hidden"], some ⟨false, 0⟩⟩]
        else none)
      { path := ["home", "dir"], entries := [], selected_index := 0, needs_reload := true }
      rfl).1⟩
